import Mathlib

/-!
Verification of the face-comparison pipeline
(`Face_Recognition_System.py`, `Face_Cropping.py`, `server_api.py`).

The pretrained detector and embedding network are external black boxes; they
appear here as parameters (an abstract embedding `String → List ℝ`, an
abstract pairwise distance oracle, an abstract per-file detection outcome).
Everything the repository itself computes — pair enumeration, threshold
decisions, report text, crop numbering, largest-face selection, the HTTP
endpoint's control flow and saved filenames, the numbered-file scan — is
embedded as executable Lean definitions mirroring the Python line by line.
-/

/-- Decimal rendering of a natural number, digit characters only; models
Python `str(int)` as used in f-strings ("{face_counter}", "{len(results)}",
"{int(time.time() * 1000)}").  Helper: digit character for a value `0..9`. -/
def digitChar (d : Nat) : Char :=
  match d with
  | 0 => '0' | 1 => '1' | 2 => '2' | 3 => '3' | 4 => '4'
  | 5 => '5' | 6 => '6' | 7 => '7' | 8 => '8' | _ => '9'

/-- Digit list of `n` (most significant first), fuel-bounded structural
recursion; `fuel ≥ n` suffices for the result to be the decimal expansion.
Empty for `0`. -/
def natDigitsAux : Nat → Nat → List Char
  | 0, _ => []
  | _ + 1, 0 => []
  | fuel + 1, n + 1 =>
    natDigitsAux fuel ((n + 1) / 10) ++ [digitChar ((n + 1) % 10)]

/-- Digit list of `n` (most significant first); empty for `0`. -/
def natDigits (n : Nat) : List Char :=
  natDigitsAux n n

/-- Decimal string of a natural number, as Python `str` renders it. -/
def natStr (n : Nat) : String :=
  if n = 0 then "0" else String.mk (natDigits n)

example : natStr 0 = "0" := by decide

example : natStr 20000 = "20000" := by decide

/-- Index pairs `(i, j)` with `i < j < n`, in the order generated by the two
nested loops of `FaceRecognitionSystem.compare_all_pairs`:
`for i in range(n): for j in range(i + 1, n)`. -/
def pairIndices (n : Nat) : List (Nat × Nat) :=
  (List.range n).flatMap
    (fun i => (List.range' (i + 1) (n - (i + 1))).map (fun j => (i, j)))

/-- Embedding of `FaceRecognitionSystem.compare_all_pairs`.  The distance
computation `self.compare_faces` (two model invocations plus an L2 norm) is
the parameter `cmp`; the threshold decision and result tuple construction are
the code's own.  Returns `[]` when fewer than two faces are given (the code's
explicit guard), otherwise one tuple `(img_i, img_j, d, d < threshold)` per
generated index pair. -/
def compare_all_pairs {R : Type} [LinearOrder R]
    (cmp : String → String → R) (face_images : List String) (threshold : R) :
    List (String × String × R × Bool) :=
  if face_images.length < 2 then []
  else
    (pairIndices face_images.length).map (fun p =>
      let a := face_images.getD p.1 ""
      let b := face_images.getD p.2 ""
      let d := cmp a b
      (a, b, d, decide (d < threshold)))

example : pairIndices 3 = [(0, 1), (0, 2), (1, 2)] := by decide

example :
    compare_all_pairs (fun _ _ => (1 : ℚ)) ["a", "b"] 2 =
      [("a", "b", 1, true)] := by decide

/-- L2 norm of a vector, as `torch.norm(emb1 - emb2, p=2)` computes it:
square root of the sum of squared entries. -/
noncomputable def l2norm (v : List ℝ) : ℝ :=
  Real.sqrt ((v.map (fun x => x ^ 2)).sum)

/-- Embedding of `FaceRecognitionSystem.compare_faces`.  Loading an image and
running the embedding network (`self.model(self.load_image(path))`) is the
abstract deterministic map `embed` — the network is an external black box.
The code's own computation is the elementwise difference of the two embedding
vectors and its L2 norm. -/
noncomputable def compare_faces (embed : String → List ℝ)
    (img1_path img2_path : String) : ℝ :=
  l2norm (List.zipWith (fun x y => x - y) (embed img1_path) (embed img2_path))

/-- Split a character list at every occurrence of `c`; executable model of
the component splitting behind Python `Path(p).name`. -/
def splitOnChar (c : Char) : List Char → List (List Char)
  | [] => [[]]
  | x :: xs =>
    let r := splitOnChar c xs
    if x = c then [] :: r
    else
      match r with
      | [] => [[x]]
      | y :: ys => (x :: y) :: ys

/-- Final path component, as Python `Path(p).name` yields on the POSIX-style
relative paths the pipeline produces (`output_dir/{n}.jpg`). -/
def pathName (p : String) : String :=
  String.mk ((splitOnChar '/' p.data).getLastD [])

example : pathName "pairs/1.jpg" = "1.jpg" := by decide

/-- Numerator of `q` scaled by `10^4` and rounded to the nearest integer
with ties to even — the integer Python `f"{d:.4f}"` renders, computed on
`q.num` and `q.den` directly (`fdiv` is floor division; the remainder test
compares `2r` with the denominator). -/
def round4 (q : ℚ) : ℤ :=
  let a := q.num * 10000
  let b := (q.den : ℤ)
  let f := a.fdiv b
  let r := a - f * b
  if 2 * r < b then f
  else if b < 2 * r then f + 1
  else if f % 2 = 0 then f else f + 1

/-- Left-pad with zeros to 4 characters. -/
def padZeros4 (s : String) : String :=
  String.mk (List.replicate (4 - s.length) '0') ++ s

/-- Fixed-point rendering with 4 decimal places: models Python `f"{d:.4f}"`
on the nonnegative distances the report prints. -/
def fmt4 (q : ℚ) : String :=
  let n := round4 q
  (if n < 0 then "-" else "") ++
    natStr (n.natAbs / 10000) ++ "." ++ padZeros4 (natStr (n.natAbs % 10000))

example : fmt4 (Rat.mk' 1 2) = "0.5000" := by decide

example : fmt4 2 = "2.0000" := by decide

/-- One report line, as `main` writes it:
`Path(img1).name vs Path(img2).name -> dist:.4f (SAME|DIFFERENT)` plus a
newline. -/
def pairLine (e : String × String × ℚ × Bool) : String :=
  pathName e.1 ++ " vs " ++ pathName e.2.1 ++ " -> " ++ fmt4 e.2.2.1 ++
    " (" ++ (if e.2.2.2 then "SAME" else "DIFFERENT") ++ ")\n"

/-- The sequence of chunks `main` writes to the results file for a
non-empty result list: the header, one line per pair in order (accumulating
`same_count` inside the loop as the code does), then the summary block which
prints `len(results)`, `same_count` and `len(results) - same_count`. -/
def reportChunks (results : List (String × String × ℚ × Bool)) : List String :=
  let acc := results.foldl
    (fun acc e => (acc.1 ++ [pairLine e], acc.2 + if e.2.2.2 then 1 else 0))
    (([] : List String), (0 : Nat))
  ["=== Face Recognition Results ===\n\n"] ++ acc.1 ++
    ["\n=== Summary ===\n",
      "Total comparisons: " ++ natStr results.length ++ "\n",
      "Same person: " ++ natStr acc.2 ++ "\n",
      "Different persons: " ++ natStr (results.length - acc.2) ++ "\n"]

/-- Mock distance oracle for the end-to-end example: d(1,2) = 0.5,
d(1,3) = 1.5, every other pair 2.0. -/
def mockCmp (a b : String) : ℚ :=
  if a = "pairs/1.jpg" ∧ b = "pairs/2.jpg" then Rat.mk' 1 2
  else if a = "pairs/1.jpg" ∧ b = "pairs/3.jpg" then Rat.mk' 3 2
  else 2

/-- The comparison results of the end-to-end example: three mocked faces,
threshold 1.0. -/
def exampleResults : List (String × String × ℚ × Bool) :=
  compare_all_pairs mockCmp ["pairs/1.jpg", "pairs/2.jpg", "pairs/3.jpg"] 1

/-- ASCII lowercasing of one character; models Python `str.lower` on the
ASCII filenames the walk yields. -/
def lowerChar (c : Char) : Char :=
  if 'A' ≤ c ∧ c ≤ 'Z' then Char.ofNat (c.toNat + 32) else c

/-- Whether `s` ends with the character sequence `suff`. -/
def endsWithChars (s suff : List Char) : Bool :=
  decide (s.drop (s.length - suff.length) = suff)

/-- The extension filter of Face_Cropping.py:
`file.lower().endswith(('.png', '.jpg', '.jpeg'))`. -/
def isImageFile (name : String) : Bool :=
  let l := name.data.map lowerChar
  endsWithChars l ".png".data || endsWithChars l ".jpg".data ||
    endsWithChars l ".jpeg".data

example : isImageFile "Photo.JPG" = true := by decide

example : isImageFile "notes.txt" = false := by decide

/-- Bounding-box area as Face_Cropping.py computes it:
`(x2 - x1) * (y2 - y1)` for a box `(x1, y1, x2, y2)`. -/
def boxArea {K : Type} [LinearOrderedCommRing K] (b : K × K × K × K) : K :=
  (b.2.2.1 - b.1) * (b.2.2.2 - b.2.1)

/-- The index Face_Cropping.py selects: `areas.index(max(areas))`, the first
position achieving the maximal area.  Only used with a non-empty box list
(Python `max` raises on an empty one, which the surrounding `try` turns into
the error outcome). -/
def largestIdx {K : Type} [LinearOrderedCommRing K]
    (boxes : List (K × K × K × K)) : ℕ :=
  match boxes.map boxArea with
  | [] => 0
  | a :: rest => (boxes.map boxArea).indexOf (rest.foldl max a)

/-- Per-file behaviour of image decoding plus the external detector, as the
Face_Cropping.py loop body observes it: an exception anywhere in the `try`
block, `faces` None or empty, `boxes` None, or a successful detection with
the returned face tensors (abstract ids) and bounding boxes. -/
inductive DetectOutcome (K : Type) where
  | err : DetectOutcome K
  | noFace : DetectOutcome K
  | noBox : DetectOutcome K
  | detected (faces : List ℕ) (boxes : List (K × K × K × K)) : DetectOutcome K

/-- State of the extraction loop: `face_counter` (next file number, starting
at 1) and the crop files written so far, as (file number, face id) pairs in
write order. -/
structure CropState where
  counter : ℕ
  written : List (ℕ × ℕ)

/-- One iteration of the `os.walk` loop body of Face_Cropping.py.  A
non-image extension is skipped before the `try` block; an exception (`err`,
which also covers `max` of an empty area list and an out-of-range
`faces[largest_idx]`) is caught and leaves the state unchanged; `noFace` and
`noBox` only log; a successful detection writes exactly one crop — the face
at the index of the largest-area box — to `{face_counter}.jpg` and only then
increments the counter. -/
def processEntry {K : Type} [LinearOrderedCommRing K] (st : CropState)
    (e : String × DetectOutcome K) : CropState :=
  if isImageFile e.1 then
    match e.2 with
    | .err => st
    | .noFace => st
    | .noBox => st
    | .detected faces boxes =>
      match boxes with
      | [] => st
      | b :: bs =>
        let idx := largestIdx (b :: bs)
        if idx < faces.length then
          ⟨st.counter + 1, st.written ++ [(st.counter, faces.getD idx 0)]⟩
        else st
  else st

/-- The whole `os.walk` loop from an arbitrary starting state. -/
def cropFold {K : Type} [LinearOrderedCommRing K]
    (entries : List (String × DetectOutcome K)) (st : CropState) : CropState :=
  entries.foldl processEntry st

/-- The extraction run of Face_Cropping.py: counter starts at 1, nothing
written yet. -/
def runCrop {K : Type} [LinearOrderedCommRing K]
    (entries : List (String × DetectOutcome K)) : CropState :=
  cropFold entries ⟨1, []⟩

/-- An uploaded file as the `/compare` handler sees it: its original
filename (the uploaded bytes are irrelevant to the control flow modeled
here). -/
structure Upload where
  filename : String

/-- Outcome of the child-process pipeline run, as `/compare` inspects it:
exit code, whether `results.txt` exists afterwards, its text, and the
captured stdout. -/
structure PipelineRun where
  returncode : ℤ
  resultsFileExists : Bool
  resultsText : String
  stdout : String

/-- Side effects `/compare` performs on the staging area: whether
`clear_raw_images` ran, the filenames saved into `RawImages`, and whether
the child pipeline was invoked. -/
structure CompareEffects where
  cleared : Bool
  saved : List String
  pipelineInvoked : Bool

/-- HTTP-visible reply of `/compare`: status code and the `success` field of
the JSON body. -/
structure CompareReply where
  status : ℕ
  success : Bool

/-- The filename an upload is saved under:
`f"{int(time.time() * 1000)}_{upload.filename}"`. -/
def savedName (t : ℕ) (u : Upload) : String :=
  natStr t ++ "_" ++ u.filename

/-- Embedding of the `/compare` handler of server_api.py.  The wall clock is
the oracle `tstamps` (one millisecond reading per upload, in save order) and
the child process is the oracle `run`.  Mirrors the handler's control flow:
fewer than two uploads short-circuits with a 400 reply before anything is
cleared, saved or invoked; otherwise the staging directory is cleared, each
upload is saved under its timestamp-prefixed name, the pipeline runs, and
the reply is 500 on nonzero exit or missing results file, 200 with
`success: true` otherwise. -/
def compareEndpoint (images : List Upload) (tstamps : List ℕ)
    (run : PipelineRun) : CompareReply × CompareEffects :=
  if images.length < 2 then
    (⟨400, false⟩, ⟨false, [], false⟩)
  else
    let names := List.zipWith savedName tstamps images
    let eff : CompareEffects := ⟨true, names, true⟩
    if run.returncode ≠ 0 then (⟨500, false⟩, eff)
    else if run.resultsFileExists = false then (⟨500, false⟩, eff)
    else (⟨200, true⟩, eff)

/-- The character list after the first underscore; recovers the original
filename from a saved name. -/
def afterUnderscore (s : String) : List Char :=
  (s.data.dropWhile (fun c => c != '_')).tail

/-- The numbered-file scan at the end of
`FaceRecognitionSystem.crop_faces_from_directory`: starting at `i = 1`, keep
the file numbered `i` while it exists and stop at the first missing one.
The directory contents are the finite set `fs` of numbers `n` for which
`output_dir/{n}.jpg` exists when the scan runs. -/
def collectRun (fs : Finset ℕ) (i : ℕ) : List ℕ :=
  if h : i ∈ fs then i :: collectRun fs (i + 1) else []
termination_by fs.sup id + 1 - i
decreasing_by
  have hi : i ≤ fs.sup id := Finset.le_sup (f := id) h
  omega

/-- The `saved_faces` list built by the scan loop: the path
`output_dir/{i}.jpg` for each collected `i`, in order. -/
def saved_faces (dir : String) (fs : Finset ℕ) : List String :=
  (collectRun fs 1).map (fun i => dir ++ "/" ++ natStr i ++ ".jpg")

/-- Embedding of `crop_faces_from_directory` after the output directory has
been cleared: the `Face_Cropping.py` child process is abstracted into its
exit code `rc` and the resulting set `fs` of numbered crop files.  On
nonzero exit the function returns `[]` without scanning; otherwise it scans
`1.jpg, 2.jpg, ...` until the first missing file. -/
def crop_faces_from_directory (dir : String) (rc : ℤ) (fs : Finset ℕ) :
    List String :=
  if rc ≠ 0 then [] else saved_faces dir fs

theorem list_range_map_sum (f : ℕ → ℕ) (n : ℕ) :
    ((List.range n).map f).sum = ∑ i ∈ Finset.range n, f i := by
  induction n with
  | zero => simp
  | succ m ih => rw [List.range_succ, Finset.sum_range_succ, List.map_append]; simp [ih]

theorem pairIndices_length (n : ℕ) : (pairIndices n).length = n * (n - 1) / 2 := by
  rw [pairIndices, List.length_flatMap]
  have h1 : List.length ∘
      (fun i => List.map (fun j => (i, j)) (List.range' (i + 1) (n - (i + 1))))
      = fun i => n - (i + 1) := by
    funext i
    simp
  rw [h1, list_range_map_sum]
  have h2 : ∀ i ∈ Finset.range n, n - (i + 1) = n - 1 - i := fun i _ => by omega
  rw [Finset.sum_congr rfl h2, Finset.sum_range_reflect (fun j => j) n]
  exact Finset.sum_range_id n

theorem mem_pairIndices {n i j : ℕ} : (i, j) ∈ pairIndices n ↔ i < j ∧ j < n := by
  simp only [pairIndices, List.mem_flatMap, List.mem_map, List.mem_range,
    List.mem_range'_1, Prod.mk.injEq]
  constructor
  · rintro ⟨a, ha, b, ⟨hb1, hb2⟩, rfl, rfl⟩
    omega
  · rintro ⟨h1, h2⟩
    exact ⟨i, by omega, j, ⟨by omega, by omega⟩, rfl, rfl⟩

theorem pairIndices_nodup (n : ℕ) : (pairIndices n).Nodup := by
  rw [pairIndices]
  refine List.nodup_flatMap.mpr ⟨?_, ?_⟩
  · intro i _
    have hnd : (List.range' (i + 1) (n - (i + 1))).Nodup :=
      List.nodup_range' (s := i + 1) (n := n - (i + 1))
    exact List.Nodup.map (fun a b h => by simpa using h) hnd
  · have hlt := List.pairwise_lt_range n
    refine hlt.imp ?_
    intro a b hab
    intro p hpa hpb
    simp only [List.mem_map] at hpa hpb
    obtain ⟨x, _, rfl⟩ := hpa
    obtain ⟨y, _, h⟩ := hpb
    exact absurd (congrArg Prod.fst h).symm (by omega)

/-- C1: for every list of face-crop paths and every threshold,
`compare_all_pairs` returns exactly one result per unordered index pair
`(i, j)` with `i < j` — `n * (n - 1) / 2` results in total, generated from a
duplicate-free list of index pairs that contains `(i, j)` exactly when
`i < j < n` (so never a `(j, i)` mirror) — and for fewer than two faces the
result list is empty. -/
theorem compare_all_pairs_unordered_pairs {R : Type} [LinearOrder R]
    (cmp : String → String → R) (face_images : List String) (threshold : R) :
    (face_images.length < 2 → compare_all_pairs cmp face_images threshold = [])
      ∧ (compare_all_pairs cmp face_images threshold).length =
          face_images.length * (face_images.length - 1) / 2
      ∧ (∀ i j, (i, j) ∈ pairIndices face_images.length ↔
          i < j ∧ j < face_images.length)
      ∧ (pairIndices face_images.length).Nodup
      ∧ (2 ≤ face_images.length →
          compare_all_pairs cmp face_images threshold =
            (pairIndices face_images.length).map (fun p =>
              (face_images.getD p.1 "", face_images.getD p.2 "",
                cmp (face_images.getD p.1 "") (face_images.getD p.2 ""),
                decide (cmp (face_images.getD p.1 "")
                  (face_images.getD p.2 "") < threshold)))) := by
  refine ⟨?_, ?_, fun i j => mem_pairIndices, pairIndices_nodup _, ?_⟩
  · intro h
    simp [compare_all_pairs, h]
  · by_cases h : face_images.length < 2
    · interval_cases h' : face_images.length <;> simp_all [compare_all_pairs]
    · rw [compare_all_pairs, if_neg h, List.length_map, pairIndices_length]
  · intro h
    rw [compare_all_pairs, if_neg (by omega)]

theorem compare_all_pairs_unordered_pairs_app :
    (compare_all_pairs (fun _ _ => (0 : ℚ)) ["a", "b", "c"] 1).length = 3 ∧
      ((0, 1) ∈ pairIndices 3 ∧ (1, 0) ∉ pairIndices 3) := by
  have h := compare_all_pairs_unordered_pairs (fun _ _ => (0 : ℚ)) ["a", "b", "c"] 1
  refine ⟨?_, (h.2.2.1 0 1).mpr (by norm_num), fun hc => ?_⟩
  · rw [h.2.1]
    decide
  · obtain ⟨h10, -⟩ := (h.2.2.1 1 0).mp hc
    omega

/-- C2: every entry of a `compare_all_pairs` result carries `same = true`
exactly when its distance is strictly below the threshold; at exact equality
`distance = threshold` the decision is `false` (DIFFERENT).  The decision
depends only on the entry's own distance and the threshold. -/
theorem compare_all_pairs_same_iff_lt {R : Type} [LinearOrder R]
    (cmp : String → String → R) (face_images : List String) (threshold : R)
    (a b : String) (d : R) (same : Bool)
    (h : (a, b, d, same) ∈ compare_all_pairs cmp face_images threshold) :
    (same = true ↔ d < threshold) ∧ (d = threshold → same = false) := by
  rw [compare_all_pairs] at h
  by_cases hn : face_images.length < 2
  · rw [if_pos hn] at h; simp at h
  · rw [if_neg hn, List.mem_map] at h
    obtain ⟨p, _, hp⟩ := h
    simp only [Prod.mk.injEq] at hp
    obtain ⟨_, _, hd, hs⟩ := hp
    subst hd hs
    refine ⟨by simp, fun he => ?_⟩
    rw [he]
    simp

theorem zipSub_sq_comm (u v : List ℝ) :
    ((List.zipWith (fun x y => x - y) u v).map (fun x => x ^ 2)) =
      ((List.zipWith (fun x y => x - y) v u).map (fun x => x ^ 2)) := by
  induction u generalizing v with
  | nil => cases v <;> simp
  | cons a u ih =>
    cases v with
    | nil => simp
    | cons b v =>
      simp only [List.zipWith_cons_cons, List.map_cons, ih]
      congr 1
      ring

theorem zipSub_self_sq_sum (v : List ℝ) :
    ((List.zipWith (fun x y => x - y) v v).map (fun x => x ^ 2)).sum = 0 := by
  induction v with
  | nil => simp
  | cons a v ih => simp [ih]

/-- C8: the distance computed by `compare_faces` is symmetric in its two
arguments, and the distance of a face crop compared against itself is `0`,
for every (deterministic) embedding the network may realise. -/
theorem compare_faces_symm_self (embed : String → List ℝ) (a b : String) :
    compare_faces embed a b = compare_faces embed b a ∧
      compare_faces embed a a = 0 := by
  constructor
  · rw [compare_faces, compare_faces, l2norm, l2norm, zipSub_sq_comm]
  · rw [compare_faces, l2norm, zipSub_self_sq_sum, Real.sqrt_zero]

theorem compare_all_pairs_same_iff_lt_app :
    (("a", "b", (1 : ℚ), false) ∈
        compare_all_pairs (fun _ _ => (1 : ℚ)) ["a", "b"] 1) ∧
      ((false = true ↔ (1 : ℚ) < 1) ∧ ((1 : ℚ) = 1 → false = false)) :=
  ⟨by decide,
    compare_all_pairs_same_iff_lt (fun _ _ => (1 : ℚ)) ["a", "b"] 1
      "a" "b" 1 false (by decide)⟩

theorem reportLoop_eq (l : List (String × String × ℚ × Bool))
    (lines : List String) (c : Nat) :
    l.foldl
        (fun acc e => (acc.1 ++ [pairLine e], acc.2 + if e.2.2.2 then 1 else 0))
        (lines, c) =
      (lines ++ l.map pairLine, c + l.countP (fun e => e.2.2.2)) := by
  induction l generalizing lines c with
  | nil => simp
  | cons e l ih =>
    simp only [List.foldl_cons, ih, List.map_cons, List.countP_cons,
      Prod.mk.injEq]
    refine ⟨by simp, ?_⟩
    by_cases hb : e.2.2.2
    · simp [hb]
      omega
    · simp [hb]

/-- C3: for every non-empty result list the report is the header chunk, one
formatted pair line per result in generation order, then a summary block
showing the total count, the SAME count, and a DIFFERENT count equal to
total minus SAME — which equals the number of entries labeled DIFFERENT.
For the end-to-end example (three faces, distances 0.5 / 1.5 / 2.0,
threshold 1.0) the report has exactly three pair lines, marks (1,2) SAME and
the other two DIFFERENT, and the summary states "Same person: 1" and
"Different persons: 2". -/
theorem report_structure :
    (∀ results : List (String × String × ℚ × Bool), results ≠ [] →
      reportChunks results =
          ["=== Face Recognition Results ===\n\n"] ++ results.map pairLine ++
            ["\n=== Summary ===\n",
              "Total comparisons: " ++ natStr results.length ++ "\n",
              "Same person: " ++
                natStr (results.countP (fun e => e.2.2.2)) ++ "\n",
              "Different persons: " ++
                natStr (results.length -
                  results.countP (fun e => e.2.2.2)) ++ "\n"]
        ∧ results.length - results.countP (fun e => e.2.2.2) =
            results.countP (fun e => !e.2.2.2)) ∧
      reportChunks exampleResults =
        ["=== Face Recognition Results ===\n\n",
          "1.jpg vs 2.jpg -> 0.5000 (SAME)\n",
          "1.jpg vs 3.jpg -> 1.5000 (DIFFERENT)\n",
          "2.jpg vs 3.jpg -> 2.0000 (DIFFERENT)\n",
          "\n=== Summary ===\n",
          "Total comparisons: 3\n",
          "Same person: 1\n",
          "Different persons: 2\n"] := by
  constructor
  · intro results h
    constructor
    · rw [reportChunks, reportLoop_eq]
      simp
    · clear h
      have hc : results.length = results.countP (fun e => e.2.2.2) +
          results.countP (fun e => !e.2.2.2) := by
        induction results with
        | nil => simp
        | cons e l ih =>
          by_cases hb : e.2.2.2
          · simp [List.countP_cons, hb, ih]
            omega
          · simp [List.countP_cons, hb, ih]
            omega
      omega
  · decide

theorem report_structure_app :
    reportChunks exampleResults =
        ["=== Face Recognition Results ===\n\n"] ++
            exampleResults.map pairLine ++
          ["\n=== Summary ===\n",
            "Total comparisons: " ++ natStr exampleResults.length ++ "\n",
            "Same person: " ++
              natStr (exampleResults.countP (fun e => e.2.2.2)) ++ "\n",
            "Different persons: " ++
              natStr (exampleResults.length -
                exampleResults.countP (fun e => e.2.2.2)) ++ "\n"]
      ∧ exampleResults.length - exampleResults.countP (fun e => e.2.2.2) =
          exampleResults.countP (fun e => !e.2.2.2) :=
  report_structure.1 exampleResults (by decide)

theorem processEntry_cases {K : Type} [LinearOrderedCommRing K]
    (st : CropState) (e : String × DetectOutcome K) :
    processEntry st e = st ∨
      ∃ f, processEntry st e =
        ⟨st.counter + 1, st.written ++ [(st.counter, f)]⟩ := by
  rw [processEntry]
  by_cases h : isImageFile e.1
  · rw [if_pos h]
    rcases e with ⟨name, o⟩
    match o with
    | .err => exact Or.inl rfl
    | .noFace => exact Or.inl rfl
    | .noBox => exact Or.inl rfl
    | .detected faces boxes =>
      match boxes with
      | [] => exact Or.inl rfl
      | b :: bs =>
        by_cases hidx : largestIdx (b :: bs) < faces.length
        · exact Or.inr ⟨faces.getD (largestIdx (b :: bs)) 0, by simp [hidx]⟩
        · simp [hidx]
  · rw [if_neg h]
    exact Or.inl rfl

theorem cropFold_numbering {K : Type} [LinearOrderedCommRing K]
    (entries : List (String × DetectOutcome K)) (st : CropState) (s0 : ℕ)
    (hc : st.counter = s0 + st.written.length)
    (hw : st.written.map Prod.fst = List.range' s0 st.written.length) :
    (cropFold entries st).counter = s0 + (cropFold entries st).written.length
      ∧ (cropFold entries st).written.map Prod.fst =
          List.range' s0 (cropFold entries st).written.length := by
  induction entries generalizing st with
  | nil => exact ⟨hc, hw⟩
  | cons e rest ih =>
    rw [cropFold, List.foldl_cons]
    rcases processEntry_cases st e with h | ⟨f, h⟩
    · rw [h]
      exact ih st hc hw
    · rw [h]
      refine ih _ ?_ ?_
      · simp
        omega
      · simp [hw, hc, List.range'_1_concat]

/-- C4: the crop files written by the extraction loop are numbered
contiguously starting at 1 with no gaps: the written file numbers are
exactly `1, 2, ..., k` in write order, the final counter is `1 + k`, and
every single iteration either leaves the state unchanged (skipped or failed
image: no number consumed) or writes exactly one crop under the current
counter and increments it. -/
theorem crop_numbering_contiguous {K : Type} [LinearOrderedCommRing K]
    (entries : List (String × DetectOutcome K)) :
    (runCrop entries).written.map Prod.fst =
        List.range' 1 (runCrop entries).written.length
      ∧ (runCrop entries).counter = 1 + (runCrop entries).written.length
      ∧ ∀ (st : CropState) (e : String × DetectOutcome K),
          processEntry st e = st ∨
            ∃ f, processEntry st e =
              ⟨st.counter + 1, st.written ++ [(st.counter, f)]⟩ := by
  have h := cropFold_numbering entries ⟨1, []⟩ 1 (by simp) (by simp)
  exact ⟨h.2, h.1, processEntry_cases⟩

theorem foldl_max_mem {K : Type} [LinearOrder K] (a : K) (l : List K) :
    l.foldl max a ∈ a :: l := by
  induction l generalizing a with
  | nil => simp
  | cons x xs ih =>
    rw [List.foldl_cons]
    have h := ih (max a x)
    rcases max_choice a x with hm | hm <;> rw [hm] at h ⊢ <;>
      rcases List.mem_cons.mp h with h1 | h1 <;> simp [h1]

theorem le_foldl_max {K : Type} [LinearOrder K] (a : K) (l : List K) :
    ∀ y ∈ a :: l, y ≤ l.foldl max a := by
  induction l generalizing a with
  | nil =>
    intro y hy
    simp at hy
    simp [hy]
  | cons x xs ih =>
    intro y hy
    rw [List.foldl_cons]
    rcases List.mem_cons.mp hy with rfl | hy'
    · exact le_trans (le_max_left y x) (ih (max y x) _ (List.mem_cons_self _ _))
    · rcases List.mem_cons.mp hy' with rfl | hy''
      · exact le_trans (le_max_right a y) (ih (max a y) _ (List.mem_cons_self _ _))
      · exact ih (max a x) y (List.mem_cons_of_mem _ hy'')

/-- C6: on an image whose detection succeeds with a valid, non-empty box
list, the loop body writes exactly one crop for that image — the face at the
selected index — and the selected index is one whose box has maximal area
`(x2 - x1) * (y2 - y1)` among all detected boxes. -/
theorem largest_face_selected {K : Type} [LinearOrderedCommRing K]
    (st : CropState) (name : String) (faces : List ℕ)
    (b : K × K × K × K) (bs : List (K × K × K × K))
    (himg : isImageFile name = true)
    (hidx : largestIdx (b :: bs) < faces.length) :
    processEntry st (name, DetectOutcome.detected faces (b :: bs)) =
        ⟨st.counter + 1,
          st.written ++ [(st.counter, faces.getD (largestIdx (b :: bs)) 0)]⟩
      ∧ largestIdx (b :: bs) < (b :: bs).length
      ∧ ∀ bb ∈ b :: bs,
          boxArea bb ≤ boxArea ((b :: bs).getD (largestIdx (b :: bs)) b) := by
  have hmax : (bs.map boxArea).foldl max (boxArea b) ∈
      (b :: bs).map boxArea := by
    rw [List.map_cons]
    exact foldl_max_mem (boxArea b) (bs.map boxArea)
  have h1 : ((b :: bs).map boxArea).indexOf
      ((bs.map boxArea).foldl max (boxArea b)) <
      ((b :: bs).map boxArea).length := List.indexOf_lt_length.mpr hmax
  have hidx' : largestIdx (b :: bs) = ((b :: bs).map boxArea).indexOf
      ((bs.map boxArea).foldl max (boxArea b)) := by
    rw [largestIdx]
    simp only [List.map_cons]
  have hlt : largestIdx (b :: bs) < (b :: bs).length := by
    rw [hidx']
    simpa using h1
  have h2 := List.getElem_indexOf h1
  have hsel : boxArea ((b :: bs).getD (largestIdx (b :: bs)) b) =
      (bs.map boxArea).foldl max (boxArea b) := by
    rw [hidx', List.getD_eq_getElem _ _ (by simpa using h1)]
    rw [← List.getElem_map boxArea]
    exact h2
  refine ⟨?_, hlt, ?_⟩
  · rw [processEntry, if_pos himg]
    simp only [hidx, if_pos]
  · intro bb hbb
    rw [hsel]
    exact le_foldl_max (boxArea b) (bs.map boxArea) (boxArea bb)
      (by simpa using List.mem_map_of_mem boxArea hbb)

theorem largest_face_selected_app :
    (processEntry (K := ℤ) ⟨1, []⟩ ("a.jpg",
        DetectOutcome.detected [7, 8] [(0, 0, 1, 1), (0, 0, 2, 2)])).written =
      [(1, 8)] := by
  have h := largest_face_selected (K := ℤ) ⟨1, []⟩ "a.jpg" [7, 8]
    (0, 0, 1, 1) [(0, 0, 2, 2)] (by decide) (by decide)
  rw [h.1]
  decide

theorem cropFold_written_extends {K : Type} [LinearOrderedCommRing K]
    (entries : List (String × DetectOutcome K)) (st : CropState) :
    ∃ t, (cropFold entries st).written = st.written ++ t := by
  induction entries generalizing st with
  | nil => exact ⟨[], by simp [cropFold]⟩
  | cons e rest ih =>
    rw [cropFold, List.foldl_cons]
    rcases processEntry_cases st e with h | ⟨f, h⟩
    · rw [h]
      exact ih st
    · rw [h]
      obtain ⟨t, ht⟩ := ih ⟨st.counter + 1, st.written ++ [(st.counter, f)]⟩
      refine ⟨(st.counter, f) :: t, ?_⟩
      rw [cropFold] at ht
      rw [ht, List.append_assoc, List.singleton_append]

/-- C7: an error on a single file is absorbed by the per-file `try` block:
the scan of a directory listing with a failing file in the middle produces
exactly the state of the scan without it (every later file still processed,
every crop written before the failure kept), and more generally a scan only
ever appends to the list of written crops, never removes one. -/
theorem crop_error_isolated {K : Type} [LinearOrderedCommRing K]
    (xs ys : List (String × DetectOutcome K)) (name : String)
    (st : CropState) :
    cropFold (xs ++ (name, DetectOutcome.err) :: ys) st =
        cropFold (xs ++ ys) st
      ∧ ∀ entries : List (String × DetectOutcome K),
          ∃ t, (cropFold entries st).written = st.written ++ t := by
  constructor
  · rw [cropFold, cropFold, List.foldl_append, List.foldl_append,
      List.foldl_cons]
    have he : processEntry (xs.foldl processEntry st)
        (name, (DetectOutcome.err : DetectOutcome K)) =
        xs.foldl processEntry st := by
      rw [processEntry]
      split <;> rfl
    rw [he]
  · intro entries
    exact cropFold_written_extends entries st

/-- C5: a `/compare` request with fewer than two uploads is answered with
HTTP 400 and `success: false`, and nothing happens on the staging area: the
input directory is not cleared, no file is saved, the pipeline is not
invoked. -/
theorem compare_rejects_lt_two (images : List Upload) (tstamps : List ℕ)
    (run : PipelineRun) (h : images.length < 2) :
    compareEndpoint images tstamps run =
      (⟨400, false⟩, ⟨false, [], false⟩) := by
  rw [compareEndpoint, if_pos h]

theorem compare_rejects_lt_two_app :
    compareEndpoint [⟨"a.jpg"⟩] [5] ⟨0, true, "", ""⟩ =
      (⟨400, false⟩, ⟨false, [], false⟩) :=
  compare_rejects_lt_two [⟨"a.jpg"⟩] [5] ⟨0, true, "", ""⟩ (by decide)

/-- C9 counterexample: two uploads sharing an original filename, saved
within the same millisecond, receive identical saved filenames — the second
save overwrites the first, so the saved names of a valid (two-upload)
request are not pairwise distinct as the claim states. -/
theorem compare_saved_names_collide :
    2 ≤ ([⟨"a.jpg"⟩, ⟨"a.jpg"⟩] : List Upload).length ∧
      (compareEndpoint [⟨"a.jpg"⟩, ⟨"a.jpg"⟩] [5, 5] ⟨0, true, "", ""⟩).2.saved =
        ["5_a.jpg", "5_a.jpg"] ∧
      ¬ ((compareEndpoint [⟨"a.jpg"⟩, ⟨"a.jpg"⟩] [5, 5]
          ⟨0, true, "", ""⟩).2.saved).Nodup := by
  refine ⟨by decide, by decide, ?_⟩
  intro h
  rw [show (compareEndpoint [⟨"a.jpg"⟩, ⟨"a.jpg"⟩] [5, 5]
      ⟨0, true, "", ""⟩).2.saved = ["5_a.jpg", "5_a.jpg"] from by decide] at h
  simp at h

theorem digitChar_ne_underscore (d : ℕ) : digitChar d ≠ '_' := by
  match d with
  | 0 | 1 | 2 | 3 | 4 | 5 | 6 | 7 | 8 => decide
  | n + 9 =>
    have h : digitChar (n + 9) = '9' := rfl
    rw [h]
    decide

theorem natDigitsAux_chars (fuel : ℕ) :
    ∀ n c, c ∈ natDigitsAux fuel n → ∃ d, c = digitChar d := by
  induction fuel with
  | zero =>
    intro n c hc
    simp [natDigitsAux] at hc
  | succ f ih =>
    intro n c hc
    match n with
    | 0 => simp [natDigitsAux] at hc
    | m + 1 =>
      rw [natDigitsAux] at hc
      rcases List.mem_append.mp hc with h | h
      · exact ih _ c h
      · simp at h
        exact ⟨(m + 1) % 10, h⟩

theorem natStr_no_underscore (n : ℕ) : '_' ∉ (natStr n).data := by
  rw [natStr]
  by_cases h : n = 0
  · rw [if_pos h]
    decide
  · rw [if_neg h]
    intro hc
    obtain ⟨d, hd⟩ := natDigitsAux_chars n n '_' hc
    exact digitChar_ne_underscore d hd.symm

theorem dropWhile_all_append (p : Char → Bool) (a b : List Char)
    (ha : ∀ c ∈ a, p c = true) :
    (a ++ b).dropWhile p = b.dropWhile p := by
  induction a with
  | nil => rfl
  | cons x xs ih =>
    rw [List.cons_append, List.dropWhile_cons, if_pos (ha x (by simp))]
    exact ih (fun c hc => ha c (by simp [hc]))

theorem afterUnderscore_savedName (t : ℕ) (u : Upload) :
    afterUnderscore (savedName t u) = u.filename.data := by
  rw [afterUnderscore, savedName]
  have hdata : (natStr t ++ "_" ++ u.filename).data =
      (natStr t).data ++ '_' :: u.filename.data := by
    show ((natStr t).data ++ "_".data) ++ u.filename.data =
      (natStr t).data ++ '_' :: u.filename.data
    rw [List.append_assoc]
    rfl
  rw [hdata, dropWhile_all_append _ _ _ ?_]
  · rw [List.dropWhile_cons, if_neg (by decide)]
    rfl
  · intro c hc
    have hne : c ≠ '_' := fun he => natStr_no_underscore t (he ▸ hc)
    simpa using hne

theorem zip_savedNames_filenames (ts : List ℕ) (us : List Upload)
    (h : ts.length = us.length) :
    (List.zipWith savedName ts us).map afterUnderscore =
      us.map (fun u => u.filename.data) := by
  induction ts generalizing us with
  | nil =>
    cases us with
    | nil => rfl
    | cons u us => simp at h
  | cons t ts ih =>
    cases us with
    | nil => simp at h
    | cons u us =>
      rw [List.zipWith_cons_cons, List.map_cons, List.map_cons,
        afterUnderscore_savedName, ih us (by simpa using h)]

theorem saved_names_nodup (ts : List ℕ) (us : List Upload)
    (hlen : ts.length = us.length)
    (hnd : (us.map (fun u => u.filename)).Nodup) :
    (List.zipWith savedName ts us).Nodup := by
  apply List.Nodup.of_map afterUnderscore
  rw [zip_savedNames_filenames ts us hlen]
  have hmm : us.map (fun u => u.filename.data) =
      (us.map (fun u => u.filename)).map String.data := by
    rw [List.map_map]
    rfl
  rw [hmm]
  exact hnd.map (fun a b hab => String.ext hab)

/-- C9 (amended): for a `/compare` request with at least two uploads, the
saved filenames (millisecond timestamp prefix joined to the original upload
filename) are pairwise distinct provided the uploads' original filenames
are pairwise distinct; without that proviso two uploads sharing a filename
and saved in the same millisecond collide, and the later one overwrites the
earlier (`compare_saved_names_collide`). -/
theorem compare_saved_names_distinct (images : List Upload) (tstamps : List ℕ)
    (run : PipelineRun) (hlen : tstamps.length = images.length)
    (hnd : (images.map (fun u => u.filename)).Nodup) :
    ((compareEndpoint images tstamps run).2.saved).Nodup := by
  rw [compareEndpoint]
  by_cases h : images.length < 2
  · rw [if_pos h]
    exact List.nodup_nil
  · rw [if_neg h]
    have hzip := saved_names_nodup tstamps images hlen hnd
    split
    · exact hzip
    · split
      · exact hzip
      · exact hzip

theorem compare_saved_names_distinct_app :
    ((compareEndpoint [⟨"a.jpg"⟩, ⟨"b.jpg"⟩] [5, 5]
        ⟨0, true, "", ""⟩).2.saved).Nodup :=
  compare_saved_names_distinct [⟨"a.jpg"⟩, ⟨"b.jpg"⟩] [5, 5]
    ⟨0, true, "", ""⟩ (by decide) (by decide)

theorem collectRun_shape (fs : Finset ℕ) (i : ℕ) :
    collectRun fs i = List.range' i (collectRun fs i).length := by
  induction i using collectRun.induct fs with
  | case1 i h ih =>
    rw [collectRun, dif_pos h]
    rw [List.length_cons, List.range'_succ]
    exact congrArg (i :: ·) ih
  | case2 i h =>
    rw [collectRun, dif_neg h]
    rfl

theorem collectRun_mem (fs : Finset ℕ) (i : ℕ) :
    ∀ j, i ≤ j → j < i + (collectRun fs i).length → j ∈ fs := by
  induction i using collectRun.induct fs with
  | case1 i h ih =>
    intro j hij hjl
    rw [collectRun, dif_pos h, List.length_cons] at hjl
    by_cases hji : j = i
    · exact hji ▸ h
    · exact ih j (by omega) (by omega)
  | case2 i h =>
    intro j hij hjl
    rw [collectRun, dif_neg h, List.length_nil] at hjl
    omega

theorem collectRun_end_not_mem (fs : Finset ℕ) (i : ℕ) :
    (i + (collectRun fs i).length) ∉ fs := by
  induction i using collectRun.induct fs with
  | case1 i h ih =>
    rw [collectRun, dif_pos h, List.length_cons]
    have : i + ((collectRun fs (i + 1)).length + 1) =
        (i + 1) + (collectRun fs (i + 1)).length := by omega
    rw [this]
    exact ih
  | case2 i h =>
    rw [collectRun, dif_neg h, List.length_nil]
    simpa using h

/-- C10: with the child process exiting cleanly, the scan returns exactly
the maximal contiguous run of numbered crop files: the paths
`dir/1.jpg, ..., dir/k.jpg` where every number `1..k` exists, `k + 1` is
the first number whose file is missing; numbered files beyond that first
gap are never returned, and if `1.jpg` is missing the returned list is
empty. -/
theorem crop_scan_maximal_run (dir : String) (rc : ℤ) (fs : Finset ℕ)
    (hrc : rc = 0) :
    crop_faces_from_directory dir rc fs =
        (List.range' 1 (collectRun fs 1).length).map
          (fun i => dir ++ "/" ++ natStr i ++ ".jpg")
      ∧ (∀ j, 1 ≤ j → j ≤ (collectRun fs 1).length → j ∈ fs)
      ∧ ((collectRun fs 1).length + 1) ∉ fs
      ∧ (1 ∉ fs → crop_faces_from_directory dir rc fs = []) := by
  subst hrc
  have hopen : crop_faces_from_directory dir 0 fs = saved_faces dir fs := by
    rw [crop_faces_from_directory, if_neg (by omega)]
  refine ⟨?_, ?_, ?_, ?_⟩
  · rw [hopen, saved_faces, ← collectRun_shape]
  · intro j h1 h2
    exact collectRun_mem fs 1 j h1 (by omega)
  · have := collectRun_end_not_mem fs 1
    simpa [Nat.add_comm] using this
  · intro h1
    rw [hopen, saved_faces, collectRun, dif_neg h1]
    rfl

theorem crop_scan_maximal_run_app :
    crop_faces_from_directory "pairs" 0 {2, 3} = [] ∧
      crop_faces_from_directory "pairs" 0 {1, 2, 3, 5} =
        ["pairs/1.jpg", "pairs/2.jpg", "pairs/3.jpg"] := by
  constructor
  · exact (crop_scan_maximal_run "pairs" 0 {2, 3} rfl).2.2.2 (by decide)
  · have h1 : collectRun {1, 2, 3, 5} 1 = [1, 2, 3] := by
      rw [collectRun, dif_pos (by decide), collectRun, dif_pos (by decide),
        collectRun, dif_pos (by decide), collectRun, dif_neg (by decide)]
    rw [crop_faces_from_directory, if_neg (by omega), saved_faces, h1]
    decide
